import Mathlib

/-!
Shallow embedding of the temporal scheduling core of the Masjid prayer time
display (src/main.py): time-string parsing and formatting, the calendar
store, the lunar-date day-boundary logic, the next-event scheduler and the
adhan signal trigger, together with theorems settling the specification
claims about them.

Instants are modelled as integers counting microseconds from an arbitrary
epoch (day 0 is a Monday, so a day index d is a Friday iff d % 7 = 4,
mirroring Python's `weekday() == 4`).  Times of day parsed from `HH:MM
AM/PM` strings are whole minutes since midnight.
-/

def usPerSec : Int := 1000000

def usPerDay : Int := 86400000000

/-- Day index of an instant (floor division, as Python date arithmetic). -/
def dayOf (t : Int) : Int := t / usPerDay

/-- Friday test, mirroring `current_time.weekday() == 4` with day 0 a Monday. -/
def isFriday (t : Int) : Bool := decide (dayOf t % 7 = 4)

/-- Instant of a time of day (in minutes) on the same calendar day as `now`,
mirroring `datetime.strptime(...).replace(year=.., month=.., day=..)`. -/
def onDate (now : Int) (mins : Nat) : Int :=
  dayOf now * usPerDay + (mins : Int) * 60 * usPerSec

def digitVal (c : Char) : Nat := c.toNat - 48

/-- Longest digit prefix of a character list, and the rest. -/
def splitDigits : List Char → List Char × List Char
  | [] => ([], [])
  | c :: rest =>
    if c.isDigit then
      let p := splitDigits rest
      (c :: p.1, p.2)
    else ([], c :: rest)

def digitsVal (l : List Char) : Nat := l.foldl (fun acc c => acc * 10 + digitVal c) 0

/-- Drop a run of whitespace characters. -/
def dropAllWs : List Char → List Char
  | [] => []
  | c :: rest => if c.isWhitespace then dropAllWs rest else c :: rest

/-- Require at least one whitespace character, then drop the whole run
(the literal blank in a strptime format matches one or more whitespace). -/
def dropWs : List Char → Option (List Char)
  | [] => none
  | c :: rest => if c.isWhitespace then some (dropAllWs rest) else none

/-- Parse per `datetime.strptime(s, "%H:%M")`: a 1-2 digit hour 0-23, a
colon, a 1-2 digit minute 0-59, and nothing else. -/
def parseHM (s : String) : Option (Nat × Nat) :=
  let p := splitDigits s.toList
  if p.1.length = 0 ∨ 2 < p.1.length then none
  else
    let h := digitsVal p.1
    if 23 < h then none
    else
      match p.2 with
      | ':' :: r2 =>
        let q := splitDigits r2
        if q.1.length = 0 ∨ 2 < q.1.length then none
        else
          let m := digitsVal q.1
          if 59 < m then none
          else
            match q.2 with
            | [] => some (h, m)
            | _ => none
      | _ => none

/-- Parse per `datetime.strptime(s, "%I:%M %p")`: a 1-2 digit hour 1-12, a
colon, a 1-2 digit minute 0-59, whitespace, and AM or PM (any case).
Returns minutes since midnight. -/
def parseIMp (s : String) : Option Nat :=
  let p := splitDigits s.toList
  if p.1.length = 0 ∨ 2 < p.1.length then none
  else
    let h := digitsVal p.1
    if h = 0 ∨ 12 < h then none
    else
      match p.2 with
      | ':' :: r2 =>
        let q := splitDigits r2
        if q.1.length = 0 ∨ 2 < q.1.length then none
        else
          let m := digitsVal q.1
          if 59 < m then none
          else
            match dropWs q.2 with
            | some [p1, p2] =>
              if p2.toUpper = 'M' then
                if p1.toUpper = 'A' then some ((if h = 12 then 0 else h) * 60 + m)
                else if p1.toUpper = 'P' then some ((if h = 12 then 12 else h + 12) * 60 + m)
                else none
              else none
            | _ => none
      | _ => none

def pad2 (n : Nat) : String := if n < 10 then "0" ++ toString n else toString n

/-- Format a 24-hour time as `strftime("%I:%M %p")` does. -/
def format12 (h m : Nat) : String :=
  let h12 := if h % 12 = 0 then 12 else h % 12
  (pad2 h12 ++ ":" ++ pad2 m) ++ (if h < 12 then " AM" else " PM")

/-- Mirrors `format_prayer_time`: empty or unparseable input maps to the
empty string, otherwise `HH:MM` is rendered as `HH:MM AM/PM`. -/
def format_prayer_time (s : String) : String :=
  if s = "" then ""
  else
    match parseHM s with
    | some (h, m) => format12 h m
    | none => ""

abbrev PrayerMap := List (String × String)

abbrev Store := List (Int × PrayerMap)

abbrev SignalState := List (String × Bool)

abbrev Cand := String × Int × Bool

/-- Mirrors `dict.get(key, "")` on a day's prayer map. -/
def getD : PrayerMap → String → String
  | [], _ => ""
  | kv :: rest, k => if kv.1 = k then kv.2 else getD rest k

/-- Mirrors `dict.get(date, None)` on the loaded store. -/
def lookupStore : Store → Int → Option PrayerMap
  | [], _ => none
  | kv :: rest, d => if kv.1 = d then some kv.2 else lookupStore rest d

/-- Mirrors Python dict assignment: replace an existing binding or append. -/
def insertStore : Store → Int → PrayerMap → Store
  | [], d, v => [(d, v)]
  | kv :: rest, d, v => if kv.1 = d then (d, v) :: rest else kv :: insertStore rest d v

/-- Mirrors `self.beep_played.get(key, False)` minus the default. -/
def lookupLatch : SignalState → String → Option Bool
  | [], _ => none
  | kv :: rest, k => if kv.1 = k then some kv.2 else lookupLatch rest k

/-- Mirrors `self.beep_played.get(key, False)`. -/
def getLatch (st : SignalState) (k : String) : Bool := (lookupLatch st k).getD false

/-- Mirrors `self.beep_played[key] = b`. -/
def setLatch : SignalState → String → Bool → SignalState
  | [], k, b => [(k, b)]
  | kv :: rest, k, b => if kv.1 = k then (k, b) :: rest else kv :: setLatch rest k b

/-- Row of the tabular calendar source: a date column plus named event time
columns in 24-hour form (dates abstracted to day indices). -/
structure CsvRow where
  date : Int
  fields : List (String × String)
deriving DecidableEq

/-- The per-row dict comprehension in `load_prayer_times`: format every
non-date column value. -/
def formatRow (r : CsvRow) : PrayerMap :=
  r.fields.map (fun kv => (kv.1, format_prayer_time kv.2))

/-- Mirrors `load_prayer_times`: a missing source yields an empty store,
otherwise each row is stored keyed by its date with formatted values. -/
def load_prayer_times (src : Option (List CsvRow)) : Store :=
  match src with
  | none => []
  | some rows => rows.foldl (fun acc r => insertStore acc r.date (formatRow r)) []

/-- The Maghrib string read by `_get_islamic_date`:
`self.today_prayers.get("Maghrib", "") if self.today_prayers else ""`. -/
def maghribStr (today : Option PrayerMap) : String :=
  match today with
  | some m => getD m "Maghrib"
  | none => ""

/-- Civil day index handed to the Hijri conversion by `_get_islamic_date`:
advance one day when now has reached a parseable Maghrib time, then add the
manual offset. -/
def islamic_to_convert (today : Option PrayerMap) (now offset : Int) : Int :=
  (if maghribStr today ≠ "" then
    match parseIMp (maghribStr today) with
    | some mins => if onDate now mins ≤ now then dayOf now + 1 else dayOf now
    | none => dayOf now
  else dayOf now) + offset

/-- Mirrors `prayer_order` with the Friday substitution of Jummah for Dhuhr. -/
def prayerOrder (isFri : Bool) : List String :=
  if isFri then ["Fajr", "Jummah", "Asr", "Maghrib", "Isha"]
  else ["Fajr", "Dhuhr", "Asr", "Maghrib", "Isha"]

/-- Mirrors `times_to_check`: the Adhan time if present, and the Iqamah time
if present and textually distinct from the Adhan time. -/
def timesToCheck (adhan iqamah : String) : List (String × Bool) :=
  (if adhan ≠ "" then [(adhan, false)] else []) ++
    (if iqamah ≠ "" ∧ adhan ≠ iqamah then [(iqamah, true)] else [])

/-- One step of the scheduler's inner loop: parse the candidate time, keep
it when it is strictly in the future and strictly closer than the running
minimum. -/
def minStep (now : Int) (prayer : String) (st : Option Cand) (ti : String × Bool) :
    Option Cand :=
  match parseIMp ti.1 with
  | none => st
  | some mins =>
    if now < onDate now mins then
      match st with
      | none => some (prayer, onDate now mins - now, ti.2)
      | some c =>
        if onDate now mins - now < c.2.1 then some (prayer, onDate now mins - now, ti.2)
        else some c
    else st

/-- The scheduler's per-prayer body: skip Jummah off-Friday, then fold the
prayer's Adhan/Iqamah candidates into the running minimum. -/
def checkPrayer (m : PrayerMap) (now : Int) (isFri : Bool) (st : Option Cand)
    (prayer : String) : Option Cand :=
  if ¬ isFri ∧ prayer = "Jummah" then st
  else (timesToCheck (getD m prayer) (getD m (prayer ++ "_Iqamah"))).foldl
    (minStep now prayer) st

/-- The scheduler's today loop from `_get_time_until_next_event`. -/
def todayScan (m : PrayerMap) (now : Int) : Option Cand :=
  (prayerOrder (isFriday now)).foldl (checkPrayer m now (isFriday now)) none

/-- The cross-day fallback: next day's Fajr, when present and parseable. -/
def fallbackFajr (store : Store) (now : Int) : Option Cand :=
  match lookupStore store (dayOf now + 1) with
  | none => none
  | some m2 =>
    if getD m2 "Fajr" ≠ "" then
      match parseIMp (getD m2 "Fajr") with
      | some mins =>
        some ("Fajr", (dayOf now + 1) * usPerDay + (mins : Int) * 60 * usPerSec - now, false)
      | none => none
    else none

/-- The event selected by `_get_time_until_next_event`: today's scan result,
else the next-day Fajr fallback. -/
def selectNext (store : Store) (m : PrayerMap) (now : Int) : Option Cand :=
  match todayScan m now with
  | some c => some c
  | none => fallbackFajr store now

/-- Mirrors `_get_time_until_next_event`: the winning event name, the
countdown split into hours/minutes/seconds (truncated seconds plus one), and
the congregation flag. -/
def nextEventResult (store : Store) (today : Option PrayerMap) (now : Int) :
    Option String × Int × Int × Int × Bool :=
  match today with
  | none => (none, 0, 0, 0, false)
  | some m =>
    match selectNext store m now with
    | some (p, d, iq) =>
      if d ≠ 0 then
        let ts := d.tdiv usPerSec + 1
        (some p, ts / 3600, ts % 3600 / 60, ts % 3600 % 60, iq)
      else (none, 0, 0, 0, false)
    | none => (none, 0, 0, 0, false)

/-- A successfully collected future candidate of the scheduler loop, as a
(prayer, difference, is-congregation) triple. -/
def toCand (now : Int) (prayer : String) (ti : String × Bool) : Option Cand :=
  match parseIMp ti.1 with
  | none => none
  | some mins =>
    if now < onDate now mins then some (prayer, onDate now mins - now, ti.2) else none

/-- The future candidates one prayer contributes, in declaration order. -/
def prayerCands (m : PrayerMap) (now : Int) (isFri : Bool) (prayer : String) :
    List Cand :=
  if ¬ isFri ∧ prayer = "Jummah" then []
  else (timesToCheck (getD m prayer) (getD m (prayer ++ "_Iqamah"))).filterMap
    (toCand now prayer)

/-- All future candidates the scheduler considers today, in declaration order. -/
def candidates (m : PrayerMap) (now : Int) : List Cand :=
  (prayerOrder (isFriday now)).flatMap (prayerCands m now (isFriday now))

/-- Every timestamp the scheduler collects today (future or not). -/
def collectedInstants (m : PrayerMap) (now : Int) : List Int :=
  (prayerOrder (isFriday now)).flatMap (fun p =>
    if ¬ isFriday now ∧ p = "Jummah" then []
    else (timesToCheck (getD m p) (getD m (p ++ "_Iqamah"))).filterMap
      (fun ti => (parseIMp ti.1).map (fun mins => onDate now mins)))

/-- Pure comparison step: keep the incumbent unless the new candidate is
strictly closer. -/
def candStep (st : Option Cand) (c : Cand) : Option Cand :=
  match st with
  | none => some c
  | some c0 => if c.2.1 < c0.2.1 then some c else some c0

/-- Mirrors the inner `check_time` closure of `_check_and_play_adhan`:
fire once inside the one-second window while the latch is unset, clear the
latch once strictly past the window. -/
def check_time (now : Int) (ts key : String) (st : SignalState) : Bool × SignalState :=
  if ts = "" then (false, st)
  else
    match parseIMp ts with
    | none => (false, st)
    | some mins =>
      if onDate now mins ≤ now ∧ now < onDate now mins + usPerSec then
        if getLatch st key = false then (true, setLatch st key true) else (false, st)
      else if onDate now mins + usPerSec < now then (false, setLatch st key false)
      else (false, st)

/-- Repeated polling of `check_time` for one key, returning each tick's
fired flag. -/
def runTicks (ts key : String) : SignalState → List Int → List Bool
  | _, [] => []
  | st, n :: ns =>
    (check_time n ts key st).1 :: runTicks ts key (check_time n ts key st).2 ns

def adhanPrayers : List String := ["Fajr", "Dhuhr", "Asr", "Maghrib", "Isha", "Jummah"]

/-- One prayer's step of `_check_and_play_adhan`: weekday skip, then the
Adhan check and, when distinct, the Iqamah check; fired keys accumulate. -/
def checkPrayerAdhan (now : Int) (m : PrayerMap) (acc : List String × SignalState)
    (prayer : String) : List String × SignalState :=
  if (prayer = "Dhuhr" ∧ isFriday now = true) ∨ (prayer = "Jummah" ∧ isFriday now = false)
  then acc
  else
    let adhan := getD m prayer
    let iq := getD m (prayer ++ "_Iqamah")
    let r1 := check_time now adhan prayer acc.2
    let acc1 := (if r1.1 then acc.1 ++ [prayer] else acc.1, r1.2)
    if iq ≠ "" ∧ iq ≠ adhan then
      let r2 := check_time now iq (prayer ++ "_Iqamah") acc1.2
      (if r2.1 then acc1.1 ++ [prayer ++ "_Iqamah"] else acc1.1, r2.2)
    else acc1

/-- Mirrors `_check_and_play_adhan`: the keys fired this tick and the new
latch state. -/
def adhanTick (now : Int) (today : Option PrayerMap) (st : SignalState) :
    List String × SignalState :=
  match today with
  | none => ([], st)
  | some m => adhanPrayers.foldl (checkPrayerAdhan now m) ([], st)

/-- Mirrors the `beep_played` initialisation in `__init__`. -/
def beep_played_init : SignalState :=
  [("Fajr", false), ("Dhuhr", false), ("Asr", false),
   ("Maghrib", false), ("Isha", false), ("Jummah", false)]



/-! Helper lemmas about the latch map. -/

theorem lookupLatch_setLatch_self (st : SignalState) (k : String) (b : Bool) :
    lookupLatch (setLatch st k b) k = some b := by
  induction st with
  | nil => simp [setLatch, lookupLatch]
  | cons kv rest ih =>
    by_cases h : kv.1 = k
    · simp [setLatch, lookupLatch, h]
    · simp [setLatch, lookupLatch, h, ih]

theorem getLatch_setLatch_self (st : SignalState) (k : String) (b : Bool) :
    getLatch (setLatch st k b) k = b := by
  simp [getLatch, lookupLatch_setLatch_self]

/-! Helper lemmas about one `check_time` tick. -/

theorem parseIMp_empty : parseIMp "" = none := by decide

theorem ne_empty_of_parse {ts : String} {mins : Nat} (h : parseIMp ts = some mins) :
    ¬ ts = "" := by
  intro e
  rw [e, parseIMp_empty] at h
  exact Option.noConfusion h

theorem check_time_fire {now : Int} {ts key : String} {st : SignalState}
    (h : (check_time now ts key st).1 = true) :
    getLatch st key = false ∧
      ∃ mins, parseIMp ts = some mins ∧
        onDate now mins ≤ now ∧ now < onDate now mins + usPerSec := by
  unfold check_time at h
  split at h
  · simp at h
  · split at h
    · simp at h
    · next mins hp =>
      split at h
      · next h1 =>
        split at h
        · next h2 => exact ⟨h2, mins, hp, h1.1, h1.2⟩
        · simp at h
      · split at h
        · simp at h
        · simp at h

theorem check_time_latched {now : Int} {ts key : String} {st : SignalState}
    (h : getLatch st key = true) :
    (check_time now ts key st).1 = false ∧
      (getLatch (check_time now ts key st).2 key = true ∨
        ∃ mins, parseIMp ts = some mins ∧ onDate now mins + usPerSec < now) := by
  unfold check_time
  split
  · exact ⟨rfl, Or.inl h⟩
  · split
    · exact ⟨rfl, Or.inl h⟩
    · next mins hp =>
      split
      · next h1 =>
        rw [if_neg (by simp [h])]
        exact ⟨rfl, Or.inl h⟩
      · split
        · next h2 => exact ⟨rfl, Or.inr ⟨mins, hp, h2⟩⟩
        · exact ⟨rfl, Or.inl h⟩

theorem check_time_clear {now : Int} {ts key : String} {st : SignalState} {mins : Nat}
    (hp : parseIMp ts = some mins) (h2 : onDate now mins + usPerSec < now) :
    check_time now ts key st = (false, setLatch st key false) := by
  unfold check_time
  rw [if_neg (ne_empty_of_parse hp)]
  simp only [hp]
  rw [if_neg (by omega : ¬(onDate now mins ≤ now ∧ now < onDate now mins + usPerSec)),
    if_pos h2]

theorem check_time_boundary {now : Int} {ts key : String} {st : SignalState} {mins : Nat}
    (hp : parseIMp ts = some mins) (h2 : now = onDate now mins + usPerSec) :
    check_time now ts key st = (false, st) := by
  unfold check_time
  rw [if_neg (ne_empty_of_parse hp)]
  simp only [hp]
  rw [if_neg (by omega : ¬(onDate now mins ≤ now ∧ now < onDate now mins + usPerSec)),
    if_neg (by omega : ¬(onDate now mins + usPerSec < now))]

theorem check_time_fire_eq {now : Int} {ts key : String} {st : SignalState} {mins : Nat}
    (hp : parseIMp ts = some mins) (h1 : onDate now mins ≤ now)
    (h2 : now < onDate now mins + usPerSec) (h3 : getLatch st key = false) :
    check_time now ts key st = (true, setLatch st key true) := by
  unfold check_time
  rw [if_neg (ne_empty_of_parse hp)]
  simp only [hp]
  rw [if_pos ⟨h1, h2⟩, if_pos h3]

theorem check_time_fire_latch {now : Int} {ts key : String} {st : SignalState}
    (h : (check_time now ts key st).1 = true) :
    getLatch (check_time now ts key st).2 key = true := by
  obtain ⟨h3, mins, hp, h1, h2⟩ := check_time_fire h
  rw [check_time_fire_eq hp h1 h2 h3]
  exact getLatch_setLatch_self st key true

/-! Helper lemmas about repeated polling of one key. -/

theorem runTicks_latched (ts key : String) :
    ∀ (nows : List Int) (st : SignalState), getLatch st key = true →
      ∀ j, (runTicks ts key st nows).get? j = some true →
        ∃ k n, k < j ∧ nows.get? k = some n ∧
          ∃ mins, parseIMp ts = some mins ∧ onDate n mins + usPerSec < n := by
  intro nows
  induction nows with
  | nil => intro st _ j hj; simp [runTicks] at hj
  | cons n ns ih =>
    intro st hlatch j hj
    obtain ⟨hf, hrest⟩ := @check_time_latched n ts key st hlatch
    simp only [runTicks] at hj
    cases j with
    | zero =>
      rw [List.get?_cons_zero, Option.some.injEq] at hj
      rw [hf] at hj
      exact Bool.noConfusion hj
    | succ j' =>
      rw [List.get?_cons_succ] at hj
      cases hrest with
      | inl hlatch2 =>
        obtain ⟨k, n', hk, hkn, hm⟩ := ih (check_time n ts key st).2 hlatch2 j' hj
        exact ⟨k + 1, n', by omega, by simpa using hkn, hm⟩
      | inr hclear =>
        obtain ⟨mins, hp, hpast⟩ := hclear
        exact ⟨0, n, by omega, rfl, mins, hp, hpast⟩

theorem runTicks_once (ts key : String) :
    ∀ (nows : List Int) (st : SignalState) (i j : Nat), i < j →
      (runTicks ts key st nows).get? i = some true →
      (runTicks ts key st nows).get? j = some true →
      ∃ k n, i < k ∧ k < j ∧ nows.get? k = some n ∧
        ∃ mins, parseIMp ts = some mins ∧ onDate n mins + usPerSec < n := by
  intro nows
  induction nows with
  | nil => intro st i j _ hi _; simp [runTicks] at hi
  | cons n ns ih =>
    intro st i j hij hi hj
    simp only [runTicks] at hi hj
    cases i with
    | zero =>
      rw [List.get?_cons_zero, Option.some.injEq] at hi
      have hlatch2 := check_time_fire_latch hi
      cases j with
      | zero => omega
      | succ j' =>
        rw [List.get?_cons_succ] at hj
        obtain ⟨k, n', hk, hkn, hm⟩ :=
          runTicks_latched ts key ns (check_time n ts key st).2 hlatch2 j' hj
        exact ⟨k + 1, n', by omega, by omega, by simpa using hkn, hm⟩
    | succ i' =>
      cases j with
      | zero => omega
      | succ j' =>
        rw [List.get?_cons_succ] at hi hj
        obtain ⟨k, n', h1, h2, h3, hm⟩ :=
          ih (check_time n ts key st).2 i' j' (by omega) hi hj
        exact ⟨k + 1, n', by omega, by omega, by simpa using h3, hm⟩

/-! Helper lemmas relating the scheduler loop to its candidate list. -/

theorem minStep_toCand (now : Int) (prayer : String) (st : Option Cand)
    (ti : String × Bool) :
    minStep now prayer st ti =
      match toCand now prayer ti with
      | none => st
      | some c => candStep st c := by
  unfold minStep toCand candStep
  cases hp : parseIMp ti.1 with
  | none => rfl
  | some mins =>
    by_cases hlt : now < onDate now mins
    · cases st with
      | none => simp [hlt]
      | some c =>
        by_cases hd : onDate now mins - now < c.2.1 <;> simp [hlt, hd]
    · cases st <;> simp [hlt]

theorem foldl_minStep_eq (now : Int) (prayer : String) :
    ∀ (l : List (String × Bool)) (st : Option Cand),
      l.foldl (minStep now prayer) st =
        (l.filterMap (toCand now prayer)).foldl candStep st := by
  intro l
  induction l with
  | nil => intro st; rfl
  | cons x xs ih =>
    intro st
    rw [List.foldl_cons, List.filterMap_cons]
    cases hx : toCand now prayer x with
    | none =>
      have h1 : minStep now prayer st x = st := by rw [minStep_toCand, hx]
      rw [h1, ih]
    | some c =>
      have h1 : minStep now prayer st x = candStep st c := by rw [minStep_toCand, hx]
      rw [h1, List.foldl_cons, ih]

theorem checkPrayer_eq (m : PrayerMap) (now : Int) (isFri : Bool) (st : Option Cand)
    (p : String) :
    checkPrayer m now isFri st p = (prayerCands m now isFri p).foldl candStep st := by
  unfold checkPrayer prayerCands
  by_cases hs : ¬ isFri ∧ p = "Jummah"
  · rw [if_pos hs, if_pos hs]; rfl
  · rw [if_neg hs, if_neg hs, foldl_minStep_eq]

theorem foldl_checkPrayer_eq (m : PrayerMap) (now : Int) (isFri : Bool) :
    ∀ (ps : List String) (st : Option Cand),
      ps.foldl (checkPrayer m now isFri) st =
        (ps.flatMap (prayerCands m now isFri)).foldl candStep st := by
  intro ps
  induction ps with
  | nil => intro st; rfl
  | cons p ps ih =>
    intro st
    rw [List.foldl_cons, checkPrayer_eq, List.flatMap_cons, List.foldl_append, ih]

theorem todayScan_eq (m : PrayerMap) (now : Int) :
    todayScan m now = (candidates m now).foldl candStep none := by
  unfold todayScan candidates
  exact foldl_checkPrayer_eq m now (isFriday now) (prayerOrder (isFriday now)) none

/-! Helper lemmas: the fold with a strict comparison returns the earliest
candidate of minimal difference. -/

theorem foldl_candStep_some :
    ∀ (l : List Cand) (a c : Cand), l.foldl candStep (some a) = some c →
      (c = a ∧ ∀ c' ∈ l, a.2.1 ≤ c'.2.1) ∨
      (∃ l₁ l₂, l = l₁ ++ c :: l₂ ∧ c.2.1 < a.2.1 ∧
        (∀ c' ∈ l₁, c.2.1 < c'.2.1) ∧ (∀ c' ∈ l₂, c.2.1 ≤ c'.2.1)) := by
  intro l
  induction l with
  | nil =>
    intro a c h
    simp only [List.foldl_nil, Option.some.injEq] at h
    exact Or.inl ⟨h.symm, by simp⟩
  | cons x xs ih =>
    intro a c h
    rw [List.foldl_cons] at h
    by_cases hx : x.2.1 < a.2.1
    · rw [show candStep (some a) x = some x from by simp [candStep, hx]] at h
      rcases ih x c h with ⟨rfl, hall⟩ | ⟨l₁, l₂, hsplit, hlt, h1, h2⟩
      · exact Or.inr ⟨[], xs, rfl, hx, by simp, hall⟩
      · refine Or.inr ⟨x :: l₁, l₂, by rw [hsplit]; rfl, by omega, ?_, h2⟩
        intro c' hc'
        rcases List.mem_cons.mp hc' with rfl | hc'
        · omega
        · exact h1 c' hc'
    · rw [show candStep (some a) x = some a from by simp [candStep, hx]] at h
      rcases ih a c h with ⟨rfl, hall⟩ | ⟨l₁, l₂, hsplit, hlt, h1, h2⟩
      · refine Or.inl ⟨rfl, ?_⟩
        intro c' hc'
        rcases List.mem_cons.mp hc' with rfl | hc'
        · omega
        · exact hall c' hc'
      · refine Or.inr ⟨x :: l₁, l₂, by rw [hsplit]; rfl, hlt, ?_, h2⟩
        intro c' hc'
        rcases List.mem_cons.mp hc' with rfl | hc'
        · omega
        · exact h1 c' hc'

theorem foldl_candStep_none :
    ∀ (l : List Cand) (c : Cand), l.foldl candStep none = some c →
      ∃ l₁ l₂, l = l₁ ++ c :: l₂ ∧ (∀ c' ∈ l₁, c.2.1 < c'.2.1) ∧
        (∀ c' ∈ l₂, c.2.1 ≤ c'.2.1) := by
  intro l c h
  cases l with
  | nil => simp [List.foldl_nil] at h
  | cons x xs =>
    rw [List.foldl_cons, show candStep none x = some x from rfl] at h
    rcases foldl_candStep_some xs x c h with ⟨rfl, hall⟩ | ⟨l₁, l₂, hsplit, hlt, h1, h2⟩
    · exact ⟨[], xs, rfl, by simp, hall⟩
    · refine ⟨x :: l₁, l₂, by rw [hsplit]; rfl, ?_, h2⟩
      intro c' hc'
      rcases List.mem_cons.mp hc' with rfl | hc'
      · exact hlt
      · exact h1 c' hc'

/-! Helper lemmas about candidate membership and the selected event. -/

theorem mem_prayerCands {m : PrayerMap} {now : Int} {isFri : Bool} {p : String} {c : Cand}
    (h : c ∈ prayerCands m now isFri p) :
    c.1 = p ∧ 0 < c.2.1 ∧ ¬(¬ isFri = true ∧ p = "Jummah") ∧
      ∃ ti mins, ti ∈ timesToCheck (getD m p) (getD m (p ++ "_Iqamah")) ∧
        parseIMp ti.1 = some mins ∧ now < onDate now mins ∧
        c = (p, onDate now mins - now, ti.2) := by
  unfold prayerCands at h
  by_cases hs : ¬ isFri = true ∧ p = "Jummah"
  · rw [if_pos hs] at h
    simp at h
  · rw [if_neg hs] at h
    obtain ⟨ti, hti, htc⟩ := List.mem_filterMap.mp h
    unfold toCand at htc
    cases hp : parseIMp ti.1 with
    | none => simp only [hp] at htc; exact Option.noConfusion htc
    | some mins =>
      simp only [hp] at htc
      by_cases hlt : now < onDate now mins
      · rw [if_pos hlt] at htc
        obtain rfl := (Option.some.inj htc).symm
        exact ⟨rfl, by show 0 < onDate now mins - now; omega, hs, ti, mins, hti, hp, hlt, rfl⟩
      · rw [if_neg hlt] at htc
        exact absurd htc (by simp)

theorem candidates_mem {m : PrayerMap} {now : Int} {c : Cand}
    (h : c ∈ candidates m now) :
    c.1 ∈ prayerOrder (isFriday now) ∧ 0 < c.2.1 ∧
      ¬(¬ isFriday now = true ∧ c.1 = "Jummah") ∧
      ∃ t, t ∈ collectedInstants m now ∧ now < t ∧ c.2.1 = t - now := by
  obtain ⟨p, hp, hc⟩ := List.mem_flatMap.mp h
  obtain ⟨h1, h2, h3, ti, mins, hti, hparse, hlt, hceq⟩ := mem_prayerCands hc
  subst h1
  refine ⟨hp, h2, h3, onDate now mins, ?_, hlt, by rw [hceq]⟩
  apply List.mem_flatMap.mpr
  refine ⟨c.1, hp, ?_⟩
  rw [if_neg h3]
  exact List.mem_filterMap.mpr ⟨ti, hti, by rw [hparse]; rfl⟩

theorem todayScan_some_mem {m : PrayerMap} {now : Int} {c : Cand}
    (h : todayScan m now = some c) : c ∈ candidates m now := by
  rw [todayScan_eq] at h
  obtain ⟨l₁, l₂, hsplit, _, _⟩ := foldl_candStep_none _ _ h
  rw [hsplit]
  exact List.mem_append_right _ (List.mem_cons_self _ _)

theorem fallbackFajr_eq {store : Store} {now : Int} {c : Cand}
    (h : fallbackFajr store now = some c) :
    ∃ m2 mins, lookupStore store (dayOf now + 1) = some m2 ∧
      parseIMp (getD m2 "Fajr") = some mins ∧
      c = ("Fajr", (dayOf now + 1) * usPerDay + (mins : Int) * 60 * usPerSec - now, false) := by
  unfold fallbackFajr at h
  cases hl : lookupStore store (dayOf now + 1) with
  | none => simp only [hl] at h; exact Option.noConfusion h
  | some m2 =>
    simp only [hl] at h
    by_cases hne : getD m2 "Fajr" ≠ ""
    · rw [if_pos hne] at h
      cases hp : parseIMp (getD m2 "Fajr") with
      | none => simp only [hp] at h; exact Option.noConfusion h
      | some mins =>
        simp only [hp] at h
        exact ⟨m2, mins, rfl, hp, (Option.some.inj h).symm⟩
    · rw [if_neg hne] at h
      exact absurd h (by simp)

theorem fallback_pos {store : Store} {now : Int} {c : Cand}
    (h : fallbackFajr store now = some c) : 0 < c.2.1 := by
  obtain ⟨m2, mins, hl, hp, rfl⟩ := fallbackFajr_eq h
  show 0 < (dayOf now + 1) * usPerDay + (mins : Int) * 60 * usPerSec - now
  simp only [dayOf, usPerDay, usPerSec]
  omega

theorem selectNext_pos {store : Store} {m : PrayerMap} {now : Int} {c : Cand}
    (h : selectNext store m now = some c) : 0 < c.2.1 := by
  unfold selectNext at h
  cases ht : todayScan m now with
  | some c0 =>
    simp only [ht] at h
    obtain rfl := Option.some.inj h
    exact (candidates_mem (todayScan_some_mem ht)).2.1
  | none =>
    simp only [ht] at h
    exact fallback_pos h

/-! Claim C2: the scheduler considers only strictly-future same-day
timestamps and picks the earliest-declared candidate of minimal difference. -/

/-- Claim C2: every collected candidate of today's scan lies strictly in the
future of now (so the selected timestamp is never at or before now), and
when the scan selects a candidate it is the one of minimal time difference,
with the earliest-declared candidate winning ties; the cross-day fallback
also never selects a timestamp at or before now. -/
theorem claim_C2_next_event_min :
    ∀ (m : PrayerMap) (now : Int),
      (∀ c ∈ candidates m now, 0 < c.2.1) ∧
      (∀ c, todayScan m now = some c →
        ∃ l₁ l₂, candidates m now = l₁ ++ c :: l₂ ∧
          (∀ c' ∈ l₁, c.2.1 < c'.2.1) ∧ (∀ c' ∈ l₂, c.2.1 ≤ c'.2.1)) ∧
      (∀ (store : Store) (c : Cand), selectNext store m now = some c → 0 < c.2.1) := by
  intro m now
  refine ⟨fun c hc => (candidates_mem hc).2.1, fun c h => ?_,
    fun store c h => selectNext_pos h⟩
  rw [todayScan_eq] at h
  exact foldl_candStep_none _ _ h

/-- Witness for claim C2 at a concrete Wednesday-morning input. -/
theorem claim_C2_witness :
    0 < (("Fajr", (5400000000 : Int), false) : Cand).2.1 ∧
      (∃ l₁ l₂,
        candidates [("Fajr", "05:30 AM"), ("Dhuhr", "01:00 PM")]
            (2 * usPerDay + 4 * 3600 * usPerSec) =
          l₁ ++ ("Fajr", (5400000000 : Int), false) :: l₂ ∧
        (∀ c' ∈ l₁, (("Fajr", (5400000000 : Int), false) : Cand).2.1 < c'.2.1) ∧
        (∀ c' ∈ l₂, (("Fajr", (5400000000 : Int), false) : Cand).2.1 ≤ c'.2.1)) ∧
      0 < (("Fajr", (84600000000 : Int), false) : Cand).2.1 := by
  refine ⟨(claim_C2_next_event_min [("Fajr", "05:30 AM"), ("Dhuhr", "01:00 PM")]
      (2 * usPerDay + 4 * 3600 * usPerSec)).1 _ (by decide),
    (claim_C2_next_event_min [("Fajr", "05:30 AM"), ("Dhuhr", "01:00 PM")]
      (2 * usPerDay + 4 * 3600 * usPerSec)).2.1 _ (by decide),
    (claim_C2_next_event_min [] (2 * usPerDay + 6 * 3600 * usPerSec)).2.2
      [(3, [("Fajr", "05:30 AM")])] _ (by decide)⟩

/-! Claim C4: the countdown decomposition. -/

/-- Claim C4: whenever the scheduler returns an event, the displayed
countdown is the truncated whole-second difference plus one, decomposed into
hours, minutes and seconds with minutes and seconds in [0, 60) and
nonnegative unbounded hours, recomposing exactly; in particular 04:00 with
Fajr at 05:30 yields 1h 30m 1s. -/
theorem claim_C4_countdown :
    (∀ (store : Store) (m : PrayerMap) (now : Int) (p : String) (h mi s : Int)
        (iq : Bool),
      nextEventResult store (some m) now = (some p, h, mi, s, iq) →
      ∃ d, selectNext store m now = some (p, d, iq) ∧ 0 < d ∧
        0 ≤ h ∧ 0 ≤ mi ∧ mi < 60 ∧ 0 ≤ s ∧ s < 60 ∧
        h * 3600 + mi * 60 + s = d.tdiv usPerSec + 1) ∧
      nextEventResult [] (some [("Fajr", "05:30 AM"), ("Dhuhr", "01:00 PM")])
        (2 * usPerDay + 4 * 3600 * usPerSec) = (some "Fajr", 1, 30, 1, false) := by
  constructor
  · intro store m now p h mi s iq heq
    unfold nextEventResult at heq
    cases hsel : selectNext store m now with
    | none =>
      simp only [hsel] at heq
      exact absurd (congrArg Prod.fst heq) (by simp)
    | some c =>
      obtain ⟨p0, d, iq0⟩ := c
      have hd : 0 < d := selectNext_pos hsel
      simp only [hsel] at heq
      rw [if_pos (by omega : d ≠ 0)] at heq
      simp only [Prod.mk.injEq, Option.some.injEq] at heq
      obtain ⟨rfl, hh, hmi, hs, rfl⟩ := heq
      refine ⟨d, rfl, hd, ?_⟩
      have hx : 0 ≤ d.tdiv usPerSec := Int.tdiv_nonneg (by omega) (by decide)
      simp only [usPerSec] at hx hh hmi hs ⊢
      omega
  · decide

/-- Witness for claim C4 at the concrete scenario input. -/
theorem claim_C4_witness :
    ∃ d, selectNext [] [("Fajr", "05:30 AM"), ("Dhuhr", "01:00 PM")]
        (2 * usPerDay + 4 * 3600 * usPerSec) = some ("Fajr", d, false) ∧ 0 < d ∧
      0 ≤ (1 : Int) ∧ 0 ≤ (30 : Int) ∧ (30 : Int) < 60 ∧ 0 ≤ (1 : Int) ∧
      (1 : Int) < 60 ∧ (1 : Int) * 3600 + 30 * 60 + 1 = d.tdiv usPerSec + 1 :=
  claim_C4_countdown.1 [] [("Fajr", "05:30 AM"), ("Dhuhr", "01:00 PM")]
    (2 * usPerDay + 4 * 3600 * usPerSec) "Fajr" 1 30 1 false (by decide)

/-! Claim C3: the civil date fed to the lunar conversion. -/

/-- Claim C3: with a present and parseable day-boundary (Maghrib) time the
resolver converts day plus one plus the manual offset once now has reached
the boundary, and day plus offset before it; an absent or unparseable
boundary time is never fatal and never advances the day. -/
theorem claim_C3_lunar_day_input :
    ∀ (today : Option PrayerMap) (now offset : Int),
      (∀ mins, parseIMp (maghribStr today) = some mins →
        (onDate now mins ≤ now →
          islamic_to_convert today now offset = dayOf now + 1 + offset) ∧
        (now < onDate now mins →
          islamic_to_convert today now offset = dayOf now + offset)) ∧
      (maghribStr today = "" →
        islamic_to_convert today now offset = dayOf now + offset) ∧
      (parseIMp (maghribStr today) = none →
        islamic_to_convert today now offset = dayOf now + offset) := by
  intro today now offset
  refine ⟨fun mins hp => ⟨fun hle => ?_, fun hlt => ?_⟩, fun he => ?_, fun hn => ?_⟩
  · unfold islamic_to_convert
    rw [if_pos (ne_empty_of_parse hp)]
    simp only [hp]
    rw [if_pos hle]
  · unfold islamic_to_convert
    rw [if_pos (ne_empty_of_parse hp)]
    simp only [hp]
    rw [if_neg (by omega : ¬ onDate now mins ≤ now)]
  · unfold islamic_to_convert
    rw [he, if_neg (by simp)]
  · unfold islamic_to_convert
    by_cases he : maghribStr today = ""
    · rw [he, if_neg (by simp)]
    · rw [if_pos he]
      simp only [hn]

/-- Witness for claim C3 at concrete inputs around a 18:45 Maghrib. -/
theorem claim_C3_witness :
    islamic_to_convert (some [("Maghrib", "06:45 PM")]) 68400000000 (-1) = 0 ∧
      islamic_to_convert (some [("Maghrib", "06:45 PM")]) 43200000000 (-1) = -1 ∧
      islamic_to_convert none 43200000000 (-1) = -1 := by
  refine ⟨?_, ?_, ?_⟩
  · exact (((claim_C3_lunar_day_input (some [("Maghrib", "06:45 PM")]) 68400000000
      (-1)).1 1125 (by decide)).1 (by decide)).trans (by decide)
  · exact (((claim_C3_lunar_day_input (some [("Maghrib", "06:45 PM")]) 43200000000
      (-1)).1 1125 (by decide)).2 (by decide)).trans (by decide)
  · exact ((claim_C3_lunar_day_input none 43200000000 (-1)).2.1 (by decide)).trans
      (by decide)

/-! Claim C1: at most one firing per occurrence. -/

/-- Claim C1: a tick fires only when now lies in the one-second window at
the event instant with the key's latch unset, and two firings of the same
key in one polling run are always separated by a tick that observed now
strictly past the event instant plus one second (the rearm). -/
theorem claim_C1_single_firing :
    (∀ (now : Int) (ts key : String) (st : SignalState),
      (check_time now ts key st).1 = true →
        getLatch st key = false ∧
          ∃ mins, parseIMp ts = some mins ∧
            onDate now mins ≤ now ∧ now < onDate now mins + usPerSec) ∧
    (∀ (ts key : String) (nows : List Int) (st : SignalState) (i j : Nat), i < j →
      (runTicks ts key st nows).get? i = some true →
      (runTicks ts key st nows).get? j = some true →
      ∃ k n, i < k ∧ k < j ∧ nows.get? k = some n ∧
        ∃ mins, parseIMp ts = some mins ∧ onDate n mins + usPerSec < n) :=
  ⟨fun _ _ _ _ h => check_time_fire h,
    fun ts key nows st i j => runTicks_once ts key nows st i j⟩

/-- Witness for claim C1: a fire, a rearm two seconds later, and a fresh
fire on the next day. -/
theorem claim_C1_witness :
    getLatch ([] : SignalState) "Fajr" = false ∧
      (∃ k n, 0 < k ∧ k < 2 ∧
        [(19800000000 : Int), 19800000000 + 2 * usPerSec,
          19800000000 + usPerDay].get? k = some n ∧
        ∃ mins, parseIMp "05:30 AM" = some mins ∧ onDate n mins + usPerSec < n) :=
  ⟨(claim_C1_single_firing.1 19800000000 "05:30 AM" "Fajr" [] (by decide)).1,
    claim_C1_single_firing.2 "05:30 AM" "Fajr"
      [19800000000, 19800000000 + 2 * usPerSec, 19800000000 + usPerDay] [] 0 2
      (by decide) (by decide) (by decide)⟩

/-! Claim C8: the rearm boundary.  The code clears the latch only strictly
after the event instant plus one second; at exactly that boundary instant
the latch is left untouched, contradicting the claimed inclusive bound. -/

/-- Counterexample for claim C8: a tick at exactly the event instant plus
one second does not clear a set latch. -/
theorem claim_C8_counterexample :
    ¬ (getLatch ((check_time (19800000000 + usPerSec) "05:30 AM" "Fajr"
        [("Fajr", true)]).2) "Fajr" = false) := by decide

/-- Claim C8 amended: a tick strictly past the event instant plus one second
leaves the key's latch cleared; at exactly the boundary instant the tick
leaves the state untouched (so the latch is cleared only from the first
strictly later tick). -/
theorem claim_C8_rearm_amended :
    ∀ (now : Int) (ts key : String) (st : SignalState) (mins : Nat),
      parseIMp ts = some mins →
      (onDate now mins + usPerSec < now →
        getLatch (check_time now ts key st).2 key = false) ∧
      (now = onDate now mins + usPerSec → check_time now ts key st = (false, st)) := by
  intro now ts key st mins hp
  constructor
  · intro h2
    rw [check_time_clear hp h2]
    exact getLatch_setLatch_self st key false
  · intro h2
    exact check_time_boundary hp h2

/-- Witness for amended claim C8: a strict rearm tick and a boundary tick. -/
theorem claim_C8_witness :
    getLatch (check_time (19800000000 + 2 * usPerSec) "05:30 AM" "Fajr"
        [("Fajr", true)]).2 "Fajr" = false ∧
      check_time (19800000000 + usPerSec) "05:30 AM" "Fajr" [("Fajr", true)] =
        (false, [("Fajr", true)]) :=
  ⟨(claim_C8_rearm_amended (19800000000 + 2 * usPerSec) "05:30 AM" "Fajr"
      [("Fajr", true)] 330 (by decide)).1 (by decide),
    (claim_C8_rearm_amended (19800000000 + usPerSec) "05:30 AM" "Fajr"
      [("Fajr", true)] 330 (by decide)).2 (by decide)⟩

/-! Claim C10: keys absent from the latch map behave as unset latches. -/

/-- Claim C10: the startup latch map holds exactly the six call-event keys
(no congregation keys), and for any key absent from the map the trigger
treats the latch as unset: an in-window tick fires and inserts the key set,
and a rearm tick inserts the key cleared, keeping it present. -/
theorem claim_C10_absent_key :
    (lookupLatch beep_played_init "Fajr_Iqamah" = none ∧
      lookupLatch beep_played_init "Dhuhr_Iqamah" = none ∧
      lookupLatch beep_played_init "Asr_Iqamah" = none ∧
      lookupLatch beep_played_init "Maghrib_Iqamah" = none ∧
      lookupLatch beep_played_init "Isha_Iqamah" = none ∧
      lookupLatch beep_played_init "Jummah_Iqamah" = none ∧
      beep_played_init.map Prod.fst = adhanPrayers) ∧
    (∀ (now : Int) (ts key : String) (st : SignalState) (mins : Nat),
      lookupLatch st key = none → parseIMp ts = some mins →
      onDate now mins ≤ now → now < onDate now mins + usPerSec →
        (check_time now ts key st).1 = true ∧
        lookupLatch (check_time now ts key st).2 key = some true) ∧
    (∀ (now : Int) (ts key : String) (st : SignalState) (mins : Nat),
      parseIMp ts = some mins → onDate now mins + usPerSec < now →
        lookupLatch (check_time now ts key st).2 key = some false) := by
  refine ⟨by decide, ?_, ?_⟩
  · intro now ts key st mins hnone hp h1 h2
    have h3 : getLatch st key = false := by
      unfold getLatch
      rw [hnone]
      rfl
    rw [check_time_fire_eq hp h1 h2 h3]
    exact ⟨rfl, lookupLatch_setLatch_self st key true⟩
  · intro now ts key st mins hp h2
    rw [check_time_clear hp h2]
    exact lookupLatch_setLatch_self st key false

/-- Witness for claim C10: the Fajr congregation key, absent at startup,
fires in its window and is inserted set, and is inserted cleared by a later
rearm tick. -/
theorem claim_C10_witness :
    ((check_time 22500000000 "06:15 AM" "Fajr_Iqamah" beep_played_init).1 = true ∧
      lookupLatch (check_time 22500000000 "06:15 AM" "Fajr_Iqamah"
        beep_played_init).2 "Fajr_Iqamah" = some true) ∧
      lookupLatch (check_time (22500000000 + 5 * usPerSec) "06:15 AM" "Fajr_Iqamah"
        beep_played_init).2 "Fajr_Iqamah" = some false :=
  ⟨claim_C10_absent_key.2.1 22500000000 "06:15 AM" "Fajr_Iqamah" beep_played_init 375
      (by decide) (by decide) (by decide) (by decide),
    claim_C10_absent_key.2.2 (22500000000 + 5 * usPerSec) "06:15 AM" "Fajr_Iqamah"
      beep_played_init 375 (by decide) (by decide)⟩

/-! Claim C7: behaviour once all of today's events have passed. -/

theorem candidates_empty_of_past {m : PrayerMap} {now : Int}
    (h : ∀ t ∈ collectedInstants m now, t ≤ now) : candidates m now = [] := by
  cases hc : candidates m now with
  | nil => rfl
  | cons c cs =>
    exfalso
    have hmem : c ∈ candidates m now := by rw [hc]; exact List.mem_cons_self _ _
    obtain ⟨_, _, _, t, ht, hlt, _⟩ := candidates_mem hmem
    exact absurd (h t ht) (by omega)

theorem todayScan_none_of_past {m : PrayerMap} {now : Int}
    (h : ∀ t ∈ collectedInstants m now, t ≤ now) : todayScan m now = none := by
  rw [todayScan_eq, candidates_empty_of_past h]
  rfl

/-- Claim C7: with an absent today entry the scheduler reports no event;
once every collected timestamp of today is at or before now, the only
cross-day candidate is the next day's Fajr call time when present and
parseable, returned as a non-congregation Fajr whose instant lies on the
next day, and an unavailable fallback yields the no-event result. -/
theorem claim_C7_cross_day_fallback :
    ∀ (store : Store) (now : Int),
      nextEventResult store none now = (none, 0, 0, 0, false) ∧
      (∀ m : PrayerMap, (∀ t ∈ collectedInstants m now, t ≤ now) →
        (∀ (m2 : PrayerMap) (mins : Nat),
          lookupStore store (dayOf now + 1) = some m2 →
          parseIMp (getD m2 "Fajr") = some mins →
            selectNext store m now = some ("Fajr",
              (dayOf now + 1) * usPerDay + (mins : Int) * 60 * usPerSec - now, false) ∧
            now < (dayOf now + 1) * usPerDay + (mins : Int) * 60 * usPerSec ∧
            (nextEventResult store (some m) now).1 = some "Fajr" ∧
            (nextEventResult store (some m) now).2.2.2.2 = false) ∧
        (lookupStore store (dayOf now + 1) = none →
          nextEventResult store (some m) now = (none, 0, 0, 0, false)) ∧
        (∀ m2 : PrayerMap, lookupStore store (dayOf now + 1) = some m2 →
          parseIMp (getD m2 "Fajr") = none →
          nextEventResult store (some m) now = (none, 0, 0, 0, false))) := by
  intro store now
  refine ⟨rfl, ?_⟩
  intro m hpast
  have hscan := todayScan_none_of_past hpast
  refine ⟨?_, ?_, ?_⟩
  · intro m2 mins hl hp
    have hne : getD m2 "Fajr" ≠ "" := by
      intro e
      rw [e, parseIMp_empty] at hp
      exact Option.noConfusion hp
    have hfb : fallbackFajr store now = some ("Fajr",
        (dayOf now + 1) * usPerDay + (mins : Int) * 60 * usPerSec - now, false) := by
      unfold fallbackFajr
      simp only [hl]
      rw [if_pos hne]
      simp only [hp]
    have hsel : selectNext store m now = some ("Fajr",
        (dayOf now + 1) * usPerDay + (mins : Int) * 60 * usPerSec - now, false) := by
      unfold selectNext
      simp only [hscan]
      exact hfb
    have h5 : 0 < (dayOf now + 1) * usPerDay + (mins : Int) * 60 * usPerSec - now :=
      fallback_pos hfb
    refine ⟨hsel, sub_pos.mp h5, ?_, ?_⟩ <;>
      · unfold nextEventResult
        simp only [hsel]
        rw [if_pos (Ne.symm (ne_of_lt h5))]
  · intro hl
    have hfb : fallbackFajr store now = none := by
      unfold fallbackFajr
      simp only [hl]
    unfold nextEventResult selectNext
    simp only [hscan, hfb]
  · intro m2 hl hp
    have hfb : fallbackFajr store now = none := by
      unfold fallbackFajr
      simp only [hl]
      by_cases hne : getD m2 "Fajr" ≠ ""
      · rw [if_pos hne]
        simp only [hp]
      · rw [if_neg hne]
    unfold nextEventResult selectNext
    simp only [hscan, hfb]

/-- Witness for claim C7 at a concrete evening input with tomorrow's Fajr
known, plus the degraded no-tomorrow case. -/
theorem claim_C7_witness :
    (selectNext [(3, [("Fajr", "05:30 AM")])] [("Fajr", "05:30 AM")]
        (2 * usPerDay + 6 * 3600 * usPerSec) = some ("Fajr",
          (dayOf (2 * usPerDay + 6 * 3600 * usPerSec) + 1) * usPerDay +
            (330 : Nat) * 60 * usPerSec - (2 * usPerDay + 6 * 3600 * usPerSec), false) ∧
      2 * usPerDay + 6 * 3600 * usPerSec <
        (dayOf (2 * usPerDay + 6 * 3600 * usPerSec) + 1) * usPerDay +
          (330 : Nat) * 60 * usPerSec ∧
      (nextEventResult [(3, [("Fajr", "05:30 AM")])] (some [("Fajr", "05:30 AM")])
        (2 * usPerDay + 6 * 3600 * usPerSec)).1 = some "Fajr" ∧
      (nextEventResult [(3, [("Fajr", "05:30 AM")])] (some [("Fajr", "05:30 AM")])
        (2 * usPerDay + 6 * 3600 * usPerSec)).2.2.2.2 = false) ∧
      nextEventResult [] (some [("Fajr", "05:30 AM")])
        (2 * usPerDay + 6 * 3600 * usPerSec) = (none, 0, 0, 0, false) :=
  ⟨((claim_C7_cross_day_fallback [(3, [("Fajr", "05:30 AM")])]
        (2 * usPerDay + 6 * 3600 * usPerSec)).2 [("Fajr", "05:30 AM")]
      (by decide)).1 [("Fajr", "05:30 AM")] 330 (by decide) (by decide),
    ((claim_C7_cross_day_fallback [] (2 * usPerDay + 6 * 3600 * usPerSec)).2
      [("Fajr", "05:30 AM")] (by decide)).2.1 (by decide)⟩

/-! Claim C5: weekday-dependent substitution of Jummah for Dhuhr. -/

theorem mem_append_if {c : Prop} [Decidable c] {A : List String} {x k : String}
    (h : k ∈ (if c then A ++ [x] else A)) : k ∈ A ∨ k = x := by
  split at h
  · rcases List.mem_append.mp h with h | h
    · exact Or.inl h
    · exact Or.inr (List.mem_singleton.mp h)
  · exact Or.inl h

theorem checkPrayerAdhan_fired {now : Int} {m : PrayerMap}
    {acc : List String × SignalState} {p k : String}
    (h : k ∈ (checkPrayerAdhan now m acc p).1) :
    k ∈ acc.1 ∨
      (¬((p = "Dhuhr" ∧ isFriday now = true) ∨ (p = "Jummah" ∧ isFriday now = false)) ∧
        (k = p ∨ k = p ++ "_Iqamah")) := by
  by_cases hs : (p = "Dhuhr" ∧ isFriday now = true) ∨ (p = "Jummah" ∧ isFriday now = false)
  · rw [checkPrayerAdhan, if_pos hs] at h
    exact Or.inl h
  · rw [checkPrayerAdhan, if_neg hs] at h
    simp only at h
    split at h
    · rcases mem_append_if h with h' | h'
      · rcases mem_append_if h' with h'' | h''
        · exact Or.inl h''
        · exact Or.inr ⟨hs, Or.inl h''⟩
      · exact Or.inr ⟨hs, Or.inr h'⟩
    · rcases mem_append_if h with h' | h'
      · exact Or.inl h'
      · exact Or.inr ⟨hs, Or.inl h'⟩

theorem adhanTick_fired {now : Int} {today : Option PrayerMap} {st : SignalState}
    {k : String} (h : k ∈ (adhanTick now today st).1) :
    ∃ p, p ∈ adhanPrayers ∧
      ¬((p = "Dhuhr" ∧ isFriday now = true) ∨ (p = "Jummah" ∧ isFriday now = false)) ∧
      (k = p ∨ k = p ++ "_Iqamah") := by
  cases today with
  | none => simp [adhanTick] at h
  | some m =>
    have hgen : ∀ (ps : List String) (acc : List String × SignalState),
        k ∈ (ps.foldl (checkPrayerAdhan now m) acc).1 →
        k ∈ acc.1 ∨ ∃ p, p ∈ ps ∧
          ¬((p = "Dhuhr" ∧ isFriday now = true) ∨
            (p = "Jummah" ∧ isFriday now = false)) ∧
          (k = p ∨ k = p ++ "_Iqamah") := by
      intro ps
      induction ps with
      | nil => intro acc hacc; exact Or.inl hacc
      | cons p ps ih =>
        intro acc hacc
        rw [List.foldl_cons] at hacc
        rcases ih (checkPrayerAdhan now m acc p) hacc with h' | ⟨q, hq, hq2, hq3⟩
        · rcases checkPrayerAdhan_fired h' with h'' | ⟨hns, hk⟩
          · exact Or.inl h''
          · exact Or.inr ⟨p, List.mem_cons_self _ _, hns, hk⟩
        · exact Or.inr ⟨q, List.mem_cons_of_mem _ hq, hq2, hq3⟩
    rcases hgen adhanPrayers ([], st) h with h' | h'
    · simp at h'
    · exact h'

theorem nextEventResult_kind (store : Store) (m : PrayerMap) (now : Int) :
    (nextEventResult store (some m) now).1 = none ∨
      (∃ c, todayScan m now = some c ∧
        (nextEventResult store (some m) now).1 = some c.1) ∨
      (nextEventResult store (some m) now).1 = some "Fajr" := by
  unfold nextEventResult selectNext
  cases ht : todayScan m now with
  | some c =>
    obtain ⟨p, d, iq⟩ := c
    simp only [ht]
    by_cases hd : d ≠ 0
    · rw [if_pos hd]
      exact Or.inr (Or.inl ⟨(p, d, iq), rfl, rfl⟩)
    · rw [if_neg hd]
      exact Or.inl rfl
  | none =>
    simp only [ht]
    cases hf : fallbackFajr store now with
    | none => exact Or.inl rfl
    | some c =>
      obtain ⟨m2, mins, hl, hp, rfl⟩ := fallbackFajr_eq hf
      dsimp only
      by_cases hd : (dayOf now + 1) * usPerDay + (mins : Int) * 60 * usPerSec - now ≠ 0
      · rw [if_pos hd]
        exact Or.inr (Or.inr rfl)
      · rw [if_neg hd]
        exact Or.inl rfl

/-- Claim C5: on Friday the candidate order carries Jummah in place of
Dhuhr and neither the scheduler nor the trigger ever selects or fires a
Dhuhr key; on other weekdays the Jummah keys are never counted, selected or
fired. -/
theorem claim_C5_weekday_substitution :
    ∀ (m : PrayerMap) (now : Int) (store : Store) (st : SignalState),
      (isFriday now = true →
        prayerOrder (isFriday now) = ["Fajr", "Jummah", "Asr", "Maghrib", "Isha"] ∧
        (∀ c ∈ candidates m now, c.1 ≠ "Dhuhr") ∧
        (nextEventResult store (some m) now).1 ≠ some "Dhuhr" ∧
        (∀ k ∈ (adhanTick now (some m) st).1, k ≠ "Dhuhr" ∧ k ≠ "Dhuhr_Iqamah")) ∧
      (isFriday now = false →
        (∀ c ∈ candidates m now, c.1 ≠ "Jummah") ∧
        (nextEventResult store (some m) now).1 ≠ some "Jummah" ∧
        (∀ k ∈ (adhanTick now (some m) st).1, k ≠ "Jummah" ∧ k ≠ "Jummah_Iqamah")) := by
  intro m now store st
  constructor
  · intro hF
    refine ⟨by rw [hF]; rfl, ?_, ?_, ?_⟩
    · intro c hc he
      have h1 := (candidates_mem hc).1
      rw [hF, he] at h1
      exact absurd h1 (by decide)
    · rcases nextEventResult_kind store m now with hk | ⟨c, hcs, hk⟩ | hk <;> rw [hk]
      · simp
      · intro he
        have h1 := (candidates_mem (todayScan_some_mem hcs)).1
        rw [hF, Option.some.inj he] at h1
        exact absurd h1 (by decide)
      · decide
    · intro k hk
      obtain ⟨p, hp, hns, hk2⟩ := adhanTick_fired hk
      simp only [adhanPrayers, List.mem_cons, List.not_mem_nil, or_false] at hp
      constructor
      · rintro rfl
        rcases hk2 with h' | h'
        · exact hns (Or.inl ⟨h'.symm, hF⟩)
        · rcases hp with rfl | rfl | rfl | rfl | rfl | rfl <;> exact absurd h' (by decide)
      · rintro rfl
        rcases hk2 with h' | h'
        · rcases hp with rfl | rfl | rfl | rfl | rfl | rfl <;> exact absurd h' (by decide)
        · rcases hp with rfl | rfl | rfl | rfl | rfl | rfl
          · exact absurd h' (by decide)
          · exact hns (Or.inl ⟨rfl, hF⟩)
          · exact absurd h' (by decide)
          · exact absurd h' (by decide)
          · exact absurd h' (by decide)
          · exact absurd h' (by decide)
  · intro hF
    refine ⟨?_, ?_, ?_⟩
    · intro c hc he
      exact (candidates_mem hc).2.2.1 ⟨by simp [hF], he⟩
    · rcases nextEventResult_kind store m now with hk | ⟨c, hcs, hk⟩ | hk <;> rw [hk]
      · simp
      · intro he
        exact (candidates_mem (todayScan_some_mem hcs)).2.2.1
          ⟨by simp [hF], Option.some.inj he⟩
      · decide
    · intro k hk
      obtain ⟨p, hp, hns, hk2⟩ := adhanTick_fired hk
      simp only [adhanPrayers, List.mem_cons, List.not_mem_nil, or_false] at hp
      constructor
      · rintro rfl
        rcases hk2 with h' | h'
        · exact hns (Or.inr ⟨h'.symm, hF⟩)
        · rcases hp with rfl | rfl | rfl | rfl | rfl | rfl <;> exact absurd h' (by decide)
      · rintro rfl
        rcases hk2 with h' | h'
        · rcases hp with rfl | rfl | rfl | rfl | rfl | rfl <;> exact absurd h' (by decide)
        · rcases hp with rfl | rfl | rfl | rfl | rfl | rfl
          · exact absurd h' (by decide)
          · exact absurd h' (by decide)
          · exact absurd h' (by decide)
          · exact absurd h' (by decide)
          · exact absurd h' (by decide)
          · exact hns (Or.inr ⟨rfl, hF⟩)

/-- Witness for claim C5 on a concrete Friday and a concrete Wednesday. -/
theorem claim_C5_witness :
    (∀ c ∈ candidates [("Dhuhr", "01:00 PM"), ("Jummah", "01:30 PM")]
        (4 * usPerDay + 4 * 3600 * usPerSec), c.1 ≠ "Dhuhr") ∧
      (∀ k ∈ (adhanTick (4 * usPerDay + 13 * 3600 * usPerSec)
          (some [("Dhuhr", "01:00 PM"), ("Jummah", "01:30 PM")]) []).1,
        k ≠ "Dhuhr" ∧ k ≠ "Dhuhr_Iqamah") ∧
      (∀ c ∈ candidates [("Dhuhr", "01:00 PM"), ("Jummah", "01:30 PM")]
        (2 * usPerDay + 4 * 3600 * usPerSec), c.1 ≠ "Jummah") :=
  ⟨((claim_C5_weekday_substitution [("Dhuhr", "01:00 PM"), ("Jummah", "01:30 PM")]
      (4 * usPerDay + 4 * 3600 * usPerSec) [] []).1 (by decide)).2.1,
    ((claim_C5_weekday_substitution [("Dhuhr", "01:00 PM"), ("Jummah", "01:30 PM")]
      (4 * usPerDay + 13 * 3600 * usPerSec) [] []).1 (by decide)).2.2.2,
    ((claim_C5_weekday_substitution [("Dhuhr", "01:00 PM"), ("Jummah", "01:30 PM")]
      (2 * usPerDay + 4 * 3600 * usPerSec) [] []).2 (by decide)).1⟩

/-! Claim C6: on Friday only the congregational key is consulted. -/

/-- Counterexample for claim C6: on a Friday whose row supplies the midday
time only under the regular name (Dhuhr), the scheduler reports no event
before 13:00 and the trigger fires nothing at 13:00, so the event is neither
scheduled nor triggered that day. -/
theorem claim_C6_counterexample :
    ¬ (nextEventResult [] (some [("Dhuhr", "01:00 PM")])
        (4 * usPerDay + 4 * 3600 * usPerSec) ≠ (none, 0, 0, 0, false) ∨
      (adhanTick (4 * usPerDay + 13 * 3600 * usPerSec)
        (some [("Dhuhr", "01:00 PM")]) []).1 ≠ []) := by decide

/-- Claim C6 amended: on the designated weekday the substituted midday
event's time is read from the congregational key (Jummah) only: a day
supplying it under that key is scheduled and triggered, while a day
supplying it only under the regular key (Dhuhr) is neither scheduled nor
triggered by the midday logic. -/
theorem claim_C6_amended :
    ∀ (now : Int) (ts : String) (mins : Nat) (st : SignalState),
      isFriday now = true → parseIMp ts = some mins →
      (now < onDate now mins →
        todayScan [("Jummah", ts)] now =
          some ("Jummah", onDate now mins - now, false)) ∧
      (onDate now mins ≤ now → now < onDate now mins + usPerSec →
        getLatch st "Jummah" = false →
        (adhanTick now (some [("Jummah", ts)]) st).1 = ["Jummah"]) ∧
      todayScan [("Dhuhr", ts)] now = none ∧
      (adhanTick now (some [("Dhuhr", ts)]) st).1 = [] := by
  intro now ts mins st hF hp
  have hne : ts ≠ "" := ne_empty_of_parse hp
  refine ⟨?_, ?_, ?_, ?_⟩
  · intro hlt
    unfold todayScan
    rw [hF]
    have h1 : checkPrayer [("Jummah", ts)] now true none "Jummah" =
        some ("Jummah", onDate now mins - now, false) := by
      rw [checkPrayer, if_neg (by simp)]
      rw [show getD [("Jummah", ts)] "Jummah" = ts from rfl,
        show getD [("Jummah", ts)] ("Jummah" ++ "_Iqamah") = "" from rfl]
      rw [timesToCheck, if_pos hne, if_neg (by simp)]
      rw [show ([(ts, false)] ++ [] : List (String × Bool)) = [(ts, false)] from rfl]
      rw [List.foldl_cons, List.foldl_nil]
      rw [minStep]
      simp only [hp]
      rw [if_pos hlt]
    show List.foldl (checkPrayer [("Jummah", ts)] now true) none
      ["Fajr", "Jummah", "Asr", "Maghrib", "Isha"] = _
    rw [List.foldl_cons,
      show checkPrayer [("Jummah", ts)] now true none "Fajr" = none from rfl,
      List.foldl_cons, h1, List.foldl_cons,
      show checkPrayer [("Jummah", ts)] now true
        (some ("Jummah", onDate now mins - now, false)) "Asr" =
          some ("Jummah", onDate now mins - now, false) from rfl,
      List.foldl_cons,
      show checkPrayer [("Jummah", ts)] now true
        (some ("Jummah", onDate now mins - now, false)) "Maghrib" =
          some ("Jummah", onDate now mins - now, false) from rfl,
      List.foldl_cons,
      show checkPrayer [("Jummah", ts)] now true
        (some ("Jummah", onDate now mins - now, false)) "Isha" =
          some ("Jummah", onDate now mins - now, false) from rfl,
      List.foldl_nil]
  · intro h1 h2 hlatch
    unfold adhanTick adhanPrayers
    dsimp only
    rw [List.foldl_cons,
      show checkPrayerAdhan now [("Jummah", ts)] ([], st) "Fajr" = ([], st) from rfl,
      List.foldl_cons,
      show checkPrayerAdhan now [("Jummah", ts)] ([], st) "Dhuhr" = ([], st) from by
        rw [checkPrayerAdhan, if_pos (Or.inl ⟨rfl, hF⟩)],
      List.foldl_cons,
      show checkPrayerAdhan now [("Jummah", ts)] ([], st) "Asr" = ([], st) from rfl,
      List.foldl_cons,
      show checkPrayerAdhan now [("Jummah", ts)] ([], st) "Maghrib" = ([], st) from rfl,
      List.foldl_cons,
      show checkPrayerAdhan now [("Jummah", ts)] ([], st) "Isha" = ([], st) from rfl,
      List.foldl_cons, List.foldl_nil]
    rw [checkPrayerAdhan, if_neg (by simp [hF])]
    rw [show getD [("Jummah", ts)] "Jummah" = ts from rfl,
      show getD [("Jummah", ts)] ("Jummah" ++ "_Iqamah") = "" from rfl]
    dsimp only
    rw [check_time_fire_eq hp h1 h2 hlatch]
    simp
  · unfold todayScan
    rw [hF]
    rfl
  · unfold adhanTick adhanPrayers
    dsimp only
    rw [List.foldl_cons,
      show checkPrayerAdhan now [("Dhuhr", ts)] ([], st) "Fajr" = ([], st) from rfl,
      List.foldl_cons,
      show checkPrayerAdhan now [("Dhuhr", ts)] ([], st) "Dhuhr" = ([], st) from by
        rw [checkPrayerAdhan, if_pos (Or.inl ⟨rfl, hF⟩)],
      List.foldl_cons,
      show checkPrayerAdhan now [("Dhuhr", ts)] ([], st) "Asr" = ([], st) from rfl,
      List.foldl_cons,
      show checkPrayerAdhan now [("Dhuhr", ts)] ([], st) "Maghrib" = ([], st) from rfl,
      List.foldl_cons,
      show checkPrayerAdhan now [("Dhuhr", ts)] ([], st) "Isha" = ([], st) from rfl,
      List.foldl_cons, List.foldl_nil]
    rw [show checkPrayerAdhan now [("Dhuhr", ts)] ([], st) "Jummah" = ([], st) from by
      rw [checkPrayerAdhan, if_neg (by simp [hF])]; rfl]

/-- Witness for amended claim C6 on a concrete Friday with Jummah at 13:30. -/
theorem claim_C6_witness :
    todayScan [("Jummah", "01:30 PM")] (4 * usPerDay + 4 * 3600 * usPerSec) =
      some ("Jummah",
        onDate (4 * usPerDay + 4 * 3600 * usPerSec) 810 -
          (4 * usPerDay + 4 * 3600 * usPerSec), false) ∧
      (adhanTick (4 * usPerDay + 13 * 3600 * usPerSec + 30 * 60 * usPerSec)
        (some [("Jummah", "01:30 PM")]) []).1 = ["Jummah"] ∧
      todayScan [("Dhuhr", "01:30 PM")] (4 * usPerDay + 4 * 3600 * usPerSec) = none :=
  ⟨(claim_C6_amended (4 * usPerDay + 4 * 3600 * usPerSec) "01:30 PM" 810 []
      (by decide) (by decide)).1 (by decide),
    (claim_C6_amended (4 * usPerDay + 13 * 3600 * usPerSec + 30 * 60 * usPerSec)
      "01:30 PM" 810 [] (by decide) (by decide)).2.1 (by decide) (by decide) (by decide),
    (claim_C6_amended (4 * usPerDay + 4 * 3600 * usPerSec) "01:30 PM" 810 []
      (by decide) (by decide)).2.2.1⟩

/-! Claim C9: loading and looking up the calendar store. -/

theorem lookupStore_insert_self (acc : Store) (d : Int) (v : PrayerMap) :
    lookupStore (insertStore acc d v) d = some v := by
  induction acc with
  | nil => simp [insertStore, lookupStore]
  | cons kv rest ih =>
    by_cases h : kv.1 = d
    · simp [insertStore, lookupStore, h]
    · simp [insertStore, lookupStore, h, ih]

theorem load_skip (d : Int) :
    ∀ (rows : List CsvRow) (acc : Store), (∀ r ∈ rows, r.date ≠ d) →
      lookupStore (rows.foldl (fun acc r => insertStore acc r.date (formatRow r)) acc) d =
        lookupStore acc d := by
  intro rows
  induction rows with
  | nil => intro acc _; rfl
  | cons x xs ih =>
    intro acc hne
    rw [List.foldl_cons, ih _ (fun r hr => hne r (List.mem_cons_of_mem _ hr))]
    have hx : x.date ≠ d := hne x (List.mem_cons_self _ _)
    induction acc with
    | nil => simp [insertStore, lookupStore, hx]
    | cons kv rest ih2 =>
      by_cases h : kv.1 = x.date
      · simp [insertStore, lookupStore, h, hx, fun e => hx (h ▸ e)]
      · simp [insertStore, lookupStore, h, ih2]

theorem load_lookup (d : Int) :
    ∀ (rows : List CsvRow) (acc : Store) (r : CsvRow), r ∈ rows → r.date = d →
      (∀ r' ∈ rows, r'.date = d → r' = r) →
      lookupStore (rows.foldl (fun acc r => insertStore acc r.date (formatRow r)) acc) d =
        some (formatRow r) := by
  intro rows
  induction rows with
  | nil => intro acc r hr; exact absurd hr (List.not_mem_nil r)
  | cons x xs ih =>
    intro acc r hr hd huniq
    rw [List.foldl_cons]
    by_cases hx : ∃ r' ∈ xs, r'.date = d
    · obtain ⟨r', hr', hd'⟩ := hx
      have he : r' = r := huniq r' (List.mem_cons_of_mem _ hr') hd'
      subst he
      exact ih _ r' hr' hd' (fun r'' h'' e => huniq r'' (List.mem_cons_of_mem _ h'') e)
    · push_neg at hx
      have hxr : x = r := by
        rcases List.mem_cons.mp hr with h | h
        · exact h.symm
        · exact absurd hd (hx r h)
      subst hxr
      rw [load_skip d xs _ hx, hd, lookupStore_insert_self]

/-- Claim C9: a missing source loads as an empty store; looking up a date
present in the source returns exactly that row's entries with each value
normalized by `format_prayer_time`; a date not present yields absent; and
normalization sends 24-hour times to 12-hour AM/PM form while mapping empty
or unparseable values to the absent marker. -/
theorem claim_C9_store_roundtrip :
    (load_prayer_times none = [] ∧
      ∀ d : Int, lookupStore (load_prayer_times none) d = none) ∧
    (∀ (rows : List CsvRow) (r : CsvRow) (d : Int), r ∈ rows → r.date = d →
      (∀ r' ∈ rows, r'.date = d → r' = r) →
      lookupStore (load_prayer_times (some rows)) d = some (formatRow r)) ∧
    (∀ (rows : List CsvRow) (d : Int), (∀ r ∈ rows, r.date ≠ d) →
      lookupStore (load_prayer_times (some rows)) d = none) ∧
    (format_prayer_time "05:30" = "05:30 AM" ∧
      format_prayer_time "13:00" = "01:00 PM" ∧
      format_prayer_time "00:15" = "12:15 AM" ∧
      format_prayer_time "" = "" ∧
      format_prayer_time "24:00" = "" ∧
      format_prayer_time "abc" = "") := by
  refine ⟨⟨rfl, fun d => rfl⟩, ?_, ?_, by decide⟩
  · intro rows r d hr hd huniq
    exact load_lookup d rows [] r hr hd huniq
  · intro rows d hne
    exact load_skip d rows [] hne

/-- Witness for claim C9 on a concrete two-row source. -/
theorem claim_C9_witness :
    lookupStore (load_prayer_times (some
        [⟨0, [("Fajr", "05:30"), ("Sunrise", "")]⟩,
         ⟨1, [("Fajr", "05:31"), ("Dhuhr", "13:00")]⟩])) 0 =
      some [("Fajr", "05:30 AM"), ("Sunrise", "")] ∧
      lookupStore (load_prayer_times (some
        [⟨0, [("Fajr", "05:30"), ("Sunrise", "")]⟩,
         ⟨1, [("Fajr", "05:31"), ("Dhuhr", "13:00")]⟩])) 7 = none := by
  constructor
  · exact (claim_C9_store_roundtrip.2.1
      [⟨0, [("Fajr", "05:30"), ("Sunrise", "")]⟩,
       ⟨1, [("Fajr", "05:31"), ("Dhuhr", "13:00")]⟩]
      ⟨0, [("Fajr", "05:30"), ("Sunrise", "")]⟩ 0
      (by decide) (by decide) (by decide)).trans (by decide)
  · exact claim_C9_store_roundtrip.2.2.1
      [⟨0, [("Fajr", "05:30"), ("Sunrise", "")]⟩,
       ⟨1, [("Fajr", "05:31"), ("Dhuhr", "13:00")]⟩] 7 (by decide)
